import Mathlib

set_option maxHeartbeats 1000000

/-!
Shallow embedding of the teensy-loader flashing tool (src/teensy-loader.c).

The Intel hex parser state (the global buffers firmware_image and
firmware_mask, the end-of-file flag, the running byte counter and the
extended address base) is collected into an explicit state record.  Lines
are modeled as the character content of the C string handed to
ihex_parse_line.  The sscanf calls on a field of width N are modeled by
scanHex: the longest prefix of hex digits, at most N of them, is converted
(a conversion failure when the first character is not a hex digit), while
the caller advances the read position by the fixed field width, exactly as
the C code advances ptr.  C sscanf additionally skips leading white-space,
accepts an optional sign and a 0x prefix, and a NUL byte would terminate
the C string early; scanFaithfulChar names the characters free of those
effects, on which the model provably agrees with sscanf, and the one
theorem that quantifies over free characters in a scanned field carries
that restriction as an explicit hypothesis.  All concrete lines appearing
in counterexamples and witnesses use only faithful characters.

Machine integers: the C uint32_t arithmetic of the address-range gate and
of the firmware array index (int added to uint32_t is reduced mod 2^32)
is made explicit with percent 2^32.  All other quantities stay far below
their C types' ranges on the paths the theorems speak about.
-/

/-- Maximum flash image size, from the C define MAX_MEMORY_SIZE. -/
def MAX_MEMORY_SIZE : Nat := 0x1000000

/-- Value of a hex digit character, as accepted by sscanf with a hex conversion. -/
def hexVal (c : Char) : Option Nat :=
  if '0' ≤ c ∧ c ≤ '9' then some (c.toNat - 48)
  else if 'A' ≤ c ∧ c ≤ 'F' then some (c.toNat - 55)
  else if 'a' ≤ c ∧ c ≤ 'f' then some (c.toNat - 87)
  else none

/-- Longest prefix of hex digits of a character list, capped at a field width. -/
def takeHexDigits : Nat → List Char → List Nat
  | 0, _ => []
  | _, [] => []
  | w + 1, c :: rest =>
    match hexVal c with
    | some d => d :: takeHexDigits w rest
    | none => []

/-- Model of sscanf with a width-w hex conversion: fails when no digit can be
read, otherwise converts the digit prefix. -/
def scanHex (w : Nat) (cs : List Char) : Option Nat :=
  match takeHexDigits w cs with
  | [] => none
  | ds => some (ds.foldl (fun a d => 16 * a + d) 0)

/-- Characters on which the digit-prefix model of a hex conversion agrees
with C sscanf.  Excluded are the white-space characters sscanf skips before
an item, the signs it accepts on a hex item, the letters x and X that can
extend a 0x prefix, and NUL, which would end the C string early. -/
def scanFaithfulChar (c : Char) : Bool :=
  !(c = ' ' || c = '\t' || c = '\n' || c = '\r' || c = '\x0b' || c = '\x0c'
    || c = '+' || c = '-' || c = 'x' || c = 'X' || c = '\x00')

/-- Parser / firmware image state: the global variables of the C hex reader. -/
structure IhexState where
  image : Nat → Nat
  mask : Nat → Bool
  endSeen : Bool
  byteCount : Nat
  extAddr : Nat

/-- State after the reset at the top of ihex_read: image all 0xFF, mask clear,
no end record seen, byte counter zero, extended address zero. -/
def resetState : IhexState :=
  { image := fun _ => 255, mask := fun _ => false,
    endSeen := false, byteCount := 0, extAddr := 0 }

/-- Single store into firmware_image and firmware_mask at an index. -/
def writeByte (idx val : Nat) (st : IhexState) : IhexState :=
  { st with
    image := fun a => if a = idx then val else st.image a,
    mask := fun a => if a = idx then true else st.mask a }

/-- Header portion of ihex_parse_line: the colon, the length, the strlen
checks, the address, the record type, and the address-range gate.  Every
failure here returns 0 from the C function with no state change. -/
def parseHeader (st : IhexState) (line : List Char) : Option (Nat × Nat × Nat × List Char) :=
  match line with
  | [] => none
  | c :: p =>
    if c ≠ ':' then none
    else if line.length < 11 then none
    else
      match scanHex 2 p with
      | none => none
      | some len =>
        if line.length < 11 + len * 2 then none
        else
          match scanHex 4 (p.drop 2) with
          | none => none
          | some addr =>
            match scanHex 2 ((p.drop 2).drop 4) with
            | none => none
            | some code =>
              if (addr + st.extAddr + len) % 2 ^ 32 ≥ MAX_MEMORY_SIZE then none
              else some (len, addr, code, ((p.drop 2).drop 4).drop 2)

/-- Data loop of ihex_parse_line: reads one byte per step, stores it into the
image and the mask immediately, accumulates the checksum, and mirrors the
defensive num-over-256 check.  On a conversion failure it hands back the
partially mutated state, exactly as the C globals keep the partial writes. -/
def dataLoop (base : Nat) : Nat → Nat → Nat → IhexState → List Char → Bool × IhexState × Nat × List Char
  | _, sum, 0, st, p => (true, st, sum, p)
  | num, sum, fuel + 1, st, p =>
    match scanHex 2 p with
    | none => (false, st, sum, p)
    | some i =>
      let i2 := i % 256
      let st2 := writeByte ((base + num) % 2 ^ 32) i2 st
      let p2 := p.drop 2
      let sum2 := sum + i2
      if num + 1 ≥ 256 then (false, st2, sum2, p2)
      else dataLoop base (num + 1) sum2 fuel st2 p2

/-- Data-record tail of ihex_parse_line: the byte counter is bumped by the
declared length before the loop, then the loop runs, then the checksum is
verified; both failure exits keep the mutations already performed. -/
def dataBranch (st : IhexState) (base sum len : Nat) (p : List Char) : Nat × IhexState :=
  let st1 := { st with byteCount := st.byteCount + len }
  match dataLoop base 0 sum len st1 p with
  | (false, st2, _, _) => (0, st2)
  | (true, st2, sum2, p2) =>
    match scanHex 2 p2 with
    | none => (0, st2)
    | some ck =>
      if (sum2 % 256 + ck % 256) % 256 ≠ 0 then (0, st2) else (1, st2)

/-- Non-data tail of ihex_parse_line: type 1 sets the end flag; types 2 and 4
with declared length 2 read a value and a checksum, treat every failure as a
benign no-op returning 1, and on success update the extended address (type 4
applying the FlexSPI offset correction); every other type is a no-op. -/
def nonDataBranch (cs bs : Nat) (st : IhexState) (sum len code : Nat) (p : List Char) : Nat × IhexState :=
  if code = 1 then (1, { st with endSeen := true })
  else if code = 2 ∧ len = 2 then
    match scanHex 4 p with
    | none => (1, st)
    | some i =>
      match scanHex 2 (p.drop 4) with
      | none => (1, st)
      | some ck =>
        if ((sum + i / 256 % 256 + i % 256) % 256 + ck % 256) % 256 ≠ 0 then (1, st)
        else (1, { st with extAddr := i * 16 })
  else if code = 4 ∧ len = 2 then
    match scanHex 4 p with
    | none => (1, st)
    | some i =>
      match scanHex 2 (p.drop 4) with
      | none => (1, st)
      | some ck =>
        if ((sum + i / 256 % 256 + i % 256) % 256 + ck % 256) % 256 ≠ 0 then (1, st)
        else
          let ea := i * 65536
          let ea2 :=
            if 1048576 < cs ∧ 1024 ≤ bs ∧ 0x60000000 ≤ ea ∧ ea < 0x60000000 + cs
            then ea - 0x60000000 else ea
          (1, { st with extAddr := ea2 })
  else (1, st)

/-- Model of ihex_parse_line: returns the C result (1 valid, 0 error) paired
with the state after the call.  cs and bs are the global code_size and
block_size selected by the mcu profile. -/
def ihex_parse_line (cs bs : Nat) (st : IhexState) (line : List Char) : Nat × IhexState :=
  match parseHeader st line with
  | none => (0, st)
  | some (len, addr, code, p) =>
    let sum := len % 256 + addr / 256 % 256 + addr % 256 + code % 256
    if code ≠ 0 then nonDataBranch cs bs st sum len code p
    else dataBranch st (addr + st.extAddr) sum len p

/-- Reading loop of ihex_read over the lines of the opened file.  stdinEof
models the feof(stdin) test the C loop performs after each line; it is kept
as a parameter for structural fidelity, but since the program never reads
from standard input, stdin's end-of-file indicator is never set and the
test is false in every execution of the program (the break is dead code),
so the theorems instantiate stdinEof to false.  Returns none on a parse
error (the C function returns -2), otherwise the final state. -/
def ihexReadLoop (cs bs : Nat) (stdinEof : Bool) : IhexState → List (List Char) → Option IhexState
  | st, [] => some st
  | st, l :: ls =>
    if l.isEmpty then
      if st.endSeen then some st
      else if stdinEof then some st
      else ihexReadLoop cs bs stdinEof st ls
    else
      let r := ihex_parse_line cs bs st l
      if r.1 = 0 then none
      else if r.2.endSeen then some r.2
      else if stdinEof then some r.2
      else ihexReadLoop cs bs stdinEof r.2 ls

/-- Model of ihex_read: resets the parser state, then consumes the file's
lines. -/
def ihex_read (cs bs : Nat) (stdinEof : Bool) (lines : List (List Char)) : Option IhexState :=
  ihexReadLoop cs bs stdinEof resetState lines

/-- A run of the reading loop on which every non-empty line parses
successfully and no line is (or follows) an end-of-file record: the
condition under which the claim about full consumption of the file
applies. -/
def goodRun (cs bs : Nat) : IhexState → List (List Char) → Bool
  | _, [] => true
  | st, l :: ls =>
    if l.isEmpty then !st.endSeen && goodRun cs bs st ls
    else
      ((ihex_parse_line cs bs st l).1 != 0)
        && !(ihex_parse_line cs bs st l).2.endSeen
        && goodRun cs bs (ihex_parse_line cs bs st l).2 ls

/-- Specification-side reading: every line of the opened file is consumed in
order, each non-empty line being parsed; written from the spec's rule that
reading continues until a type 01 record is parsed or the hex file stream
itself ends. -/
def consumeAllLines (cs bs : Nat) : IhexState → List (List Char) → IhexState
  | st, [] => st
  | st, l :: ls =>
    if l.isEmpty then consumeAllLines cs bs st ls
    else consumeAllLines cs bs (ihex_parse_line cs bs st l).2 ls

/-- Scan loop of ihex_bytes_in_range, by remaining index count. -/
def rangeLoop (st : IhexState) : Nat → Nat → Bool
  | _, 0 => false
  | i, n + 1 => if st.mask i then true else rangeLoop st (i + 1) n

/-- Model of ihex_bytes_in_range: out-of-bounds endpoints give false,
otherwise the mask is scanned over the inclusive range. -/
def ihex_bytes_in_range (st : IhexState) (b e : Int) : Bool :=
  if b < 0 ∨ b ≥ (MAX_MEMORY_SIZE : Int) ∨ e < 0 ∨ e ≥ (MAX_MEMORY_SIZE : Int) then false
  else rangeLoop st b.toNat (e.toNat + 1 - b.toNat)

/-- Model of ihex_get_data: a query with a negative argument or reaching the
capacity bound fills the output with 0xFF; otherwise each position yields the
stored byte when the mask is set and 0xFF otherwise. -/
def ihex_get_data (st : IhexState) (addr len : Int) : List Nat :=
  if addr < 0 ∨ len < 0 ∨ addr + len ≥ (MAX_MEMORY_SIZE : Int) then
    List.replicate len.toNat 255
  else
    (List.range len.toNat).map fun i =>
      if st.mask (addr.toNat + i) then st.image (addr.toNat + i) else 255

/-- Scan loop of ihex_memory_is_blank: runs while the block counter is nonzero
and the address is below capacity; the fuel bounds the iteration count (the
loop advances the address every step, so MAX_MEMORY_SIZE steps suffice). -/
def blankLoop (st : IhexState) : Nat → Int → Nat → Bool
  | _, _, 0 => true
  | a, bsz, fuel + 1 =>
    if bsz ≠ 0 ∧ a < MAX_MEMORY_SIZE then
      if st.mask a = true ∧ st.image a ≠ 255 then false
      else blankLoop st (a + 1) (bsz - 1) fuel
    else true

/-- Model of ihex_memory_is_blank: an out-of-range start address is vacuously
blank, otherwise written non-0xFF bytes in the block make it not blank. -/
def ihex_memory_is_blank (st : IhexState) (addr block_sz : Int) : Bool :=
  if addr < 0 ∨ addr > (MAX_MEMORY_SIZE : Int) then true
  else blankLoop st addr.toNat block_sz MAX_MEMORY_SIZE

/-- Supported profile combinations: the disjunction of the three header-format
guards of the programming loop; anything else reaches the die call. -/
def blockConfigOk (cs bs : Nat) : Bool :=
  decide ((bs ≤ 256 ∧ cs < 0x10000) ∨ bs = 256 ∨ bs = 512 ∨ bs = 1024)

/-- Block encoding of the programming loop body: header bytes chosen by the
profile, then the payload from ihex_get_data; none models the fatal die on an
unknown code/block size. -/
def encodeBlock (st : IhexState) (cs bs addr : Nat) : Option (List Nat) :=
  if bs ≤ 256 ∧ cs < 0x10000 then
    some ([addr % 256, addr / 256 % 256] ++ ihex_get_data st (addr : Int) (bs : Int))
  else if bs = 256 then
    some ([addr / 256 % 256, addr / 65536 % 256] ++ ihex_get_data st (addr : Int) (bs : Int))
  else if bs = 512 ∨ bs = 1024 then
    some ([addr % 256, addr / 256 % 256, addr / 65536 % 256]
      ++ List.replicate 61 0 ++ ihex_get_data st (addr : Int) (bs : Int))
  else none

/-- Programming loop of main, recording the addresses at which teensy_write is
invoked: a non-first block is skipped when nothing is written in its range or
when it is blank; a block with an unsupported profile reaches die before any
write; the first flag is cleared only after a write. -/
def progWrites (st : IhexState) (cs bs : Nat) : Nat → Nat → Bool → List Nat
  | 0, _, _ => []
  | fuel + 1, addr, first =>
    if addr < cs then
      if first = false ∧ ihex_bytes_in_range st (addr : Int) ((addr : Int) + (bs : Int) - 1) = false then
        progWrites st cs bs fuel (addr + bs) first
      else if first = false ∧ ihex_memory_is_blank st (addr : Int) (bs : Int) = true then
        progWrites st cs bs fuel (addr + bs) first
      else if blockConfigOk cs bs = true then
        addr :: progWrites st cs bs fuel (addr + bs) false
      else []
    else []

/-- Addresses written by the programming loop of main, starting at address 0
with the first-block flag set. -/
def programming_write_addrs (st : IhexState) (cs bs : Nat) : List Nat :=
  progWrites st cs bs (cs + 1) 0 true

/-- Pending-request flags of the device discovery loop in main. -/
structure LoopState where
  hardReq : Bool
  softReq : Bool
  waitFlag : Bool
  waited : Bool

/-- Outcome of the discovery loop: device opened, one of the two die exits, or
fuel exhausted (the C loop would still be polling). -/
inductive DiscResult where
  | opened
  | diedRebootor
  | diedNoDevice
  | outOfFuel
deriving DecidableEq

/-- Device discovery loop of main: try teensy_open; on failure attempt the
hard reboot once (dying when no rebootor is found), attempt the soft reboot
(its failure is ignored), die when no wait was requested, else poll again.
Returns the number of hard-reboot attempts and the outcome. -/
def discoveryLoop (openOk : Nat → Bool) (hardOk softOk : Bool) : Nat → LoopState → Nat → Nat × DiscResult
  | 0, _, _ => (0, DiscResult.outOfFuel)
  | fuel + 1, s, i =>
    if openOk i then (0, DiscResult.opened)
    else if s.hardReq = true ∧ hardOk = false then (1, DiscResult.diedRebootor)
    else
      let a1 : Nat := if s.hardReq then 1 else 0
      let s1 := if s.hardReq then { s with hardReq := false, waitFlag := true } else s
      let s2 := if s1.softReq then { s1 with softReq := false, waitFlag := true } else s1
      if s2.waitFlag = false then (a1, DiscResult.diedNoDevice)
      else
        let r := discoveryLoop openOk hardOk softOk fuel { s2 with waited := true } (i + 1)
        (a1 + r.1, r.2)

/-- Hex digit character for a value below 16, used by the line builders. -/
def hexDigit (d : Nat) : Char :=
  if d < 10 then Char.ofNat (48 + d) else Char.ofNat (55 + d)

/-- Two-digit hex encoding of a byte value. -/
def encB (n : Nat) : List Char := [hexDigit (n / 16), hexDigit (n % 16)]

/-- Four-digit hex encoding of a 16-bit value. -/
def encW (n : Nat) : List Char := encB (n / 256) ++ encB (n % 256)

/-- Hex encoding of a list of byte values. -/
def encList : List Nat → List Char
  | [] => []
  | b :: r => encB b ++ encList r

/-- Sum of a list of byte values, the data contribution to the checksum. -/
def listSum : List Nat → Nat
  | [] => 0
  | b :: r => b + listSum r

/-- General hex line builder: colon, length, address, record type, tail. -/
def mkLine (len addr code : Nat) (tail : List Char) : List Char :=
  ':' :: (encB len ++ (encW addr ++ (encB code ++ tail)))

/-- Structurally well-formed data (type 00) line with the given address, data
bytes and checksum byte. -/
def mkDataLine (addr : Nat) (data : List Nat) (ck : Nat) : List Char :=
  mkLine data.length addr 0 (encList data ++ encB ck)

/-- Structurally well-formed extended-linear-address (type 04) line carrying
the given value and checksum byte. -/
def mkType4Line (i ck : Nat) : List Char :=
  mkLine 2 0 4 (encW i ++ encB ck)

/-- Cumulative effect of the data loop's stores on the state: data byte k goes
to index base plus num plus k, reduced mod 2^32. -/
def writeBytes (base : Nat) : Nat → IhexState → List Nat → IhexState
  | _, st, [] => st
  | num, st, b :: r => writeBytes base (num + 1) (writeByte ((base + num) % 2 ^ 32) b st) r

/-- State after a data record for the given bytes at the given base: the byte
counter grows by the record length and every byte is stored. -/
def writeData (st : IhexState) (base : Nat) (data : List Nat) : IhexState :=
  writeBytes base 0 { st with byteCount := st.byteCount + data.length } data

/-! Helper lemmas about the hex encoders and the scanner. -/

theorem hexVal_hexDigit_fin : ∀ d : Fin 16, hexVal (hexDigit d.val) = some d.val := by decide

theorem hexVal_hexDigit (d : Nat) (h : d < 16) : hexVal (hexDigit d) = some d :=
  hexVal_hexDigit_fin ⟨d, h⟩

theorem takeHexDigits_encB (n : Nat) (hn : n < 256) (r : List Char) :
    takeHexDigits 2 (encB n ++ r) = [n / 16, n % 16] := by
  have h1 : n / 16 < 16 := by omega
  have h2 : n % 16 < 16 := by omega
  simp [encB, takeHexDigits, hexVal_hexDigit _ h1, hexVal_hexDigit _ h2]

theorem scanHex_encB (n : Nat) (hn : n < 256) (r : List Char) :
    scanHex 2 (encB n ++ r) = some n := by
  rw [scanHex, takeHexDigits_encB n hn r]
  have : 16 * (n / 16) + n % 16 = n := by omega
  simp [List.foldl, this]

theorem encB_drop (n : Nat) (r : List Char) : (encB n ++ r).drop 2 = r := rfl

theorem takeHexDigits_encW (n : Nat) (hn : n < 65536) (r : List Char) :
    takeHexDigits 4 (encW n ++ r) = [n / 256 / 16, n / 256 % 16, n % 256 / 16, n % 256 % 16] := by
  have h1 : n / 256 / 16 < 16 := by omega
  have h2 : n / 256 % 16 < 16 := by omega
  have h3 : n % 256 / 16 < 16 := by omega
  have h4 : n % 256 % 16 < 16 := by omega
  simp [encW, encB, takeHexDigits, hexVal_hexDigit _ h1, hexVal_hexDigit _ h2,
    hexVal_hexDigit _ h3, hexVal_hexDigit _ h4]

theorem scanHex_encW (n : Nat) (hn : n < 65536) (r : List Char) :
    scanHex 4 (encW n ++ r) = some n := by
  rw [scanHex, takeHexDigits_encW n hn r]
  have : 16 * (16 * (16 * (n / 256 / 16) + n / 256 % 16) + n % 256 / 16) + n % 256 % 16 = n := by
    omega
  simp [List.foldl, this]

theorem encW_drop (n : Nat) (r : List Char) : (encW n ++ r).drop 4 = r := rfl

theorem encList_length (data : List Nat) : (encList data).length = 2 * data.length := by
  induction data with
  | nil => rfl
  | cons b d ih => simp [encList, encB, ih]; omega

theorem mkLine_length (len addr code : Nat) (tail : List Char) :
    (mkLine len addr code tail).length = 9 + tail.length := by
  simp [mkLine, encB, encW]; omega

/-- Successful header parse of a built line. -/
theorem parseHeader_mkLine (st : IhexState) (len addr code : Nat) (tail : List Char)
    (hlen : len < 256) (haddr : addr < 65536) (hcode : code < 256)
    (htail : 2 + 2 * len ≤ tail.length)
    (hgate : (addr + st.extAddr + len) % 2 ^ 32 < MAX_MEMORY_SIZE) :
    parseHeader st (mkLine len addr code tail) = some (len, addr, code, tail) := by
  have e1 := scanHex_encB len hlen (encW addr ++ (encB code ++ tail))
  have e2 := scanHex_encW addr haddr (encB code ++ tail)
  have e3 := scanHex_encB code hcode tail
  have d1 : (encB len ++ (encW addr ++ (encB code ++ tail))).drop 2
      = encW addr ++ (encB code ++ tail) := rfl
  have d2 : (encW addr ++ (encB code ++ tail)).drop 4 = encB code ++ tail := rfl
  have d3 : (encB code ++ tail).drop 2 = tail := rfl
  have h11 : ¬ ((':' :: (encB len ++ (encW addr ++ (encB code ++ tail)))).length < 11) := by
    simp only [List.length_cons, List.length_append, encB, encW, List.length_nil]
    omega
  have h11b : ¬ ((':' :: (encB len ++ (encW addr ++ (encB code ++ tail)))).length
      < 11 + len * 2) := by
    simp only [List.length_cons, List.length_append, encB, encW, List.length_nil]
    omega
  have hg : ¬ ((addr + st.extAddr + len) % 2 ^ 32 ≥ MAX_MEMORY_SIZE) := by omega
  simp only [mkLine, parseHeader, e1, e2, e3, d1, d2, d3, if_neg h11, if_neg h11b, if_neg hg,
    ne_eq, not_true_eq_false, if_false, ite_false]

/-- A built line whose address-range gate fails is rejected by the header. -/
theorem parseHeader_mkLine_gate (st : IhexState) (len addr code : Nat) (tail : List Char)
    (hlen : len < 256) (haddr : addr < 65536) (hcode : code < 256)
    (htail : 2 + 2 * len ≤ tail.length)
    (hgate : (addr + st.extAddr + len) % 2 ^ 32 ≥ MAX_MEMORY_SIZE) :
    parseHeader st (mkLine len addr code tail) = none := by
  have e1 := scanHex_encB len hlen (encW addr ++ (encB code ++ tail))
  have e2 := scanHex_encW addr haddr (encB code ++ tail)
  have e3 := scanHex_encB code hcode tail
  have d1 : (encB len ++ (encW addr ++ (encB code ++ tail))).drop 2
      = encW addr ++ (encB code ++ tail) := rfl
  have d2 : (encW addr ++ (encB code ++ tail)).drop 4 = encB code ++ tail := rfl
  have d3 : (encB code ++ tail).drop 2 = tail := rfl
  have h11 : ¬ ((':' :: (encB len ++ (encW addr ++ (encB code ++ tail)))).length < 11) := by
    simp only [List.length_cons, List.length_append, encB, encW, List.length_nil]
    omega
  have h11b : ¬ ((':' :: (encB len ++ (encW addr ++ (encB code ++ tail)))).length
      < 11 + len * 2) := by
    simp only [List.length_cons, List.length_append, encB, encW, List.length_nil]
    omega
  simp only [mkLine, parseHeader, e1, e2, e3, d1, d2, d3, if_neg h11, if_neg h11b, if_pos hgate,
    ne_eq, not_true_eq_false, if_false, ite_false]

/-! Lemmas about the data loop and its cumulative effect on the state. -/

theorem writeBytes_byteCount (base : Nat) :
    ∀ (data : List Nat) (num : Nat) (st : IhexState),
      (writeBytes base num st data).byteCount = st.byteCount := by
  intro data
  induction data with
  | nil => intro num st; rfl
  | cons b d ih => intro num st; rw [writeBytes, ih]; rfl

theorem writeBytes_endSeen (base : Nat) :
    ∀ (data : List Nat) (num : Nat) (st : IhexState),
      (writeBytes base num st data).endSeen = st.endSeen := by
  intro data
  induction data with
  | nil => intro num st; rfl
  | cons b d ih => intro num st; rw [writeBytes, ih]; rfl

theorem writeBytes_extAddr (base : Nat) :
    ∀ (data : List Nat) (num : Nat) (st : IhexState),
      (writeBytes base num st data).extAddr = st.extAddr := by
  intro data
  induction data with
  | nil => intro num st; rfl
  | cons b d ih => intro num st; rw [writeBytes, ih]; rfl

theorem writeBytes_stable (base : Nat) :
    ∀ (data : List Nat) (num : Nat) (st : IhexState) (idx : Nat),
      (∀ j, j < data.length → (base + num + j) % 2 ^ 32 ≠ idx) →
      (writeBytes base num st data).mask idx = st.mask idx ∧
      (writeBytes base num st data).image idx = st.image idx := by
  intro data
  induction data with
  | nil => intro num st idx _; exact ⟨rfl, rfl⟩
  | cons b d ih =>
    intro num st idx hne
    have h0 : (base + num) % 2 ^ 32 ≠ idx := by
      have := hne 0 (by simp)
      simpa using this
    have hrest : ∀ j, j < d.length → (base + (num + 1) + j) % 2 ^ 32 ≠ idx := by
      intro j hj
      have := hne (j + 1) (by simp; omega)
      have e : base + num + (j + 1) = base + (num + 1) + j := by omega
      rwa [e] at this
    rw [writeBytes]
    obtain ⟨hm, hi⟩ := ih (num + 1) (writeByte ((base + num) % 2 ^ 32) b st) idx hrest
    have hne2 : idx ≠ (base + num) % 2 ^ 32 := fun hc => h0 hc.symm
    constructor
    · rw [hm]
      show (if idx = (base + num) % 2 ^ 32 then true else st.mask idx) = st.mask idx
      exact if_neg hne2
    · rw [hi]
      show (if idx = (base + num) % 2 ^ 32 then b else st.image idx) = st.image idx
      exact if_neg hne2

theorem writeBytes_get (base : Nat) :
    ∀ (data : List Nat) (num : Nat) (st : IhexState) (k : Nat) (hk : k < data.length),
      data.length + num < 2 ^ 32 →
      (writeBytes base num st data).mask ((base + num + k) % 2 ^ 32) = true ∧
      (writeBytes base num st data).image ((base + num + k) % 2 ^ 32)
        = data.get ⟨k, hk⟩ := by
  intro data
  induction data with
  | nil => intro num st k hk; simp at hk
  | cons b d ih =>
    intro num st k hk hbound
    rw [writeBytes]
    match k with
    | 0 =>
      have hne : ∀ j, j < d.length → (base + (num + 1) + j) % 2 ^ 32 ≠ (base + num + 0) % 2 ^ 32 := by
        intro j hj heq
        simp only [List.length_cons] at hbound
        omega
      obtain ⟨hm, hi⟩ := writeBytes_stable base d (num + 1)
        (writeByte ((base + num) % 2 ^ 32) b st) ((base + num + 0) % 2 ^ 32) hne
      constructor
      · rw [hm]; simp [writeByte]
      · rw [hi]; simp [writeByte]
    | k' + 1 =>
      have hk' : k' < d.length := by simpa using hk
      have e : base + num + (k' + 1) = base + (num + 1) + k' := by omega
      rw [e]
      have hb2 : d.length + (num + 1) < 2 ^ 32 := by
        simp only [List.length_cons] at hbound; omega
      obtain ⟨hm, hi⟩ := ih (num + 1) (writeByte ((base + num) % 2 ^ 32) b st) k' hk' hb2
      exact ⟨hm, hi⟩

theorem writeByte_eq_mod (idx i : Nat) (hi : i < 256) (st : IhexState) :
    writeByte idx (i % 256) st = writeByte idx i st := by
  rw [Nat.mod_eq_of_lt hi]

theorem dataLoop_enc (base : Nat) :
    ∀ (data : List Nat) (num sum : Nat) (st : IhexState) (rest : List Char),
      (∀ b ∈ data, b < 256) → num + data.length < 256 →
      dataLoop base num sum data.length st (encList data ++ rest) =
        (true, writeBytes base num st data, sum + listSum data, rest) := by
  intro data
  induction data with
  | nil =>
    intro num sum st rest _ _
    simp [dataLoop, writeBytes, listSum, encList]
  | cons b d ih =>
    intro num sum st rest hb hlt
    have hb0 : b < 256 := hb b (List.mem_cons_self b d)
    have hassoc : encList (b :: d) ++ rest = encB b ++ (encList d ++ rest) := by
      simp [encList, List.append_assoc]
    have hscan : scanHex 2 (encB b ++ (encList d ++ rest)) = some b := scanHex_encB b hb0 _
    have hlen : (b :: d).length = d.length + 1 := rfl
    rw [hassoc, hlen, dataLoop, hscan]
    simp only [encB_drop]
    rw [if_neg (by simp only [List.length_cons] at hlt; omega)]
    rw [ih (num + 1) (sum + b % 256) (writeByte ((base + num) % 2 ^ 32) (b % 256) st)
      rest (fun x hx => hb x (List.mem_cons_of_mem b hx))
      (by simp only [List.length_cons] at hlt; omega)]
    rw [writeBytes, Nat.mod_eq_of_lt hb0, listSum]
    have e : sum + b + listSum d = sum + (b + listSum d) := by omega
    rw [e]

/-- Every non-data record (nonzero type) makes ihex_parse_line return 1. -/
theorem nonDataBranch_fst (cs bs : Nat) (st : IhexState) (sum len code : Nat) (p : List Char) :
    (nonDataBranch cs bs st sum len code p).1 = 1 := by
  unfold nonDataBranch
  repeat' split
  all_goals rfl

/-- Full evaluation of ihex_parse_line on a structurally well-formed data line
with an in-range address: the outcome is decided by the checksum test, and the
state carries the writes and the byte-counter bump either way. -/
theorem parse_mkDataLine (cs bs : Nat) (st : IhexState) (addr : Nat) (data : List Nat) (ck : Nat)
    (haddr : addr < 65536) (hlen : data.length < 256) (hck : ck < 256)
    (hb : ∀ b ∈ data, b < 256)
    (hgate : (addr + st.extAddr + data.length) % 2 ^ 32 < MAX_MEMORY_SIZE) :
    ihex_parse_line cs bs st (mkDataLine addr data ck) =
      (if ((data.length % 256 + addr / 256 % 256 + addr % 256 + 0 % 256 + listSum data) % 256
            + ck % 256) % 256 ≠ 0
       then (0, writeData st (addr + st.extAddr) data)
       else (1, writeData st (addr + st.extAddr) data)) := by
  have hh := parseHeader_mkLine st data.length addr 0 (encList data ++ encB ck) hlen haddr
    (by omega)
    (by rw [List.length_append, encList_length]; simp [encB]; omega)
    hgate
  have hsc : scanHex 2 (encB ck) = some ck := by
    have := scanHex_encB ck hck []
    rwa [List.append_nil] at this
  have hdl := dataLoop_enc (addr + st.extAddr) data 0
    (data.length % 256 + addr / 256 % 256 + addr % 256 + 0 % 256)
    { st with byteCount := st.byteCount + data.length } (encB ck) hb (by omega)
  simp only [mkDataLine] at hh ⊢
  simp only [ihex_parse_line, hh, dataBranch, hdl, hsc, ne_eq, not_true_eq_false, if_false,
    ite_false, writeData]

/-- Setting one entry of a byte list shifts the data sum by the difference. -/
theorem listSum_set : ∀ (data : List Nat) (k : Nat) (hk : k < data.length) (d : Nat),
    listSum (data.set k d) + data.get ⟨k, hk⟩ = listSum data + d := by
  intro data
  induction data with
  | nil => intro k hk d; simp at hk
  | cons b r ih =>
    intro k hk d
    match k with
    | 0 => simp [listSum]; omega
    | k' + 1 =>
      have hk' : k' < r.length := by simpa using hk
      have := ih k' hk' d
      simp only [List.set, listSum, List.get]
      omega

/-- First component of the data-line evaluation: success iff the checksum test
passes. -/
theorem parse_mkDataLine_fst (cs bs : Nat) (st : IhexState) (addr : Nat) (data : List Nat)
    (ck : Nat) (haddr : addr < 65536) (hlen : data.length < 256) (hck : ck < 256)
    (hb : ∀ b ∈ data, b < 256)
    (hgate : (addr + st.extAddr + data.length) % 2 ^ 32 < MAX_MEMORY_SIZE) :
    (ihex_parse_line cs bs st (mkDataLine addr data ck)).1 =
      if ((data.length % 256 + addr / 256 % 256 + addr % 256 + 0 % 256 + listSum data) % 256
            + ck % 256) % 256 ≠ 0
      then 0 else 1 := by
  rw [parse_mkDataLine cs bs st addr data ck haddr hlen hck hb hgate]
  split <;> rfl

/-- Second component of the data-line evaluation: the state carries the writes
and the byte-counter bump whether or not the checksum test passes. -/
theorem parse_mkDataLine_snd (cs bs : Nat) (st : IhexState) (addr : Nat) (data : List Nat)
    (ck : Nat) (haddr : addr < 65536) (hlen : data.length < 256) (hck : ck < 256)
    (hb : ∀ b ∈ data, b < 256)
    (hgate : (addr + st.extAddr + data.length) % 2 ^ 32 < MAX_MEMORY_SIZE) :
    (ihex_parse_line cs bs st (mkDataLine addr data ck)).2 =
      writeData st (addr + st.extAddr) data := by
  rw [parse_mkDataLine cs bs st addr data ck haddr hlen hck hb hgate]
  split <;> rfl

/-- C1, counterexample.  The line contains one data byte 0x41 and the wrong
checksum byte 0xBF (the correct one is 0xBE), so ihex_parse_line returns
failure; but contrary to the claim, after the call the byte counter has grown
from 0 to 1, the mask flag of address 0 has been set and the image holds 0x41:
on a checksum-mismatch data line the firmware image, the written-flag mask and
the total-bytes-written counter are all mutated. -/
theorem c1_counterexample :
    (ihex_parse_line 2031616 1024 resetState (":0100000041BF").toList).1 = 0 ∧
    (ihex_parse_line 2031616 1024 resetState (":0100000041BF").toList).2.byteCount = 1 ∧
    resetState.byteCount = 0 ∧
    (ihex_parse_line 2031616 1024 resetState (":0100000041BF").toList).2.mask 0 = true ∧
    resetState.mask 0 = false ∧
    (ihex_parse_line 2031616 1024 resetState (":0100000041BF").toList).2.image 0 = 0x41 ∧
    resetState.image 0 = 0xFF := by decide

/-- C1, amended: ihex_parse_line leaves the image, the mask and the byte
counter unchanged only on failures that occur before the data section is
reached (missing colon, short line, malformed length, address or type digits,
or the address-range gate); on a data (type 00) line whose data digits all
parse but whose checksum mismatches, it still adds the declared length to the
byte counter and stores all the data bytes with their mask flags set before
returning failure.  First conjunct: any failing parse either leaves the state
untouched or got past the header with record type 0.  Second conjunct: on a
built data line failing the checksum test, the result is failure, the byte
counter grows by the record length, and every data byte is stored. -/
theorem c1_parse_failure_state :
    (∀ (cs bs : Nat) (st : IhexState) (line : List Char),
       (ihex_parse_line cs bs st line).1 = 0 →
       (ihex_parse_line cs bs st line).2 = st ∨
         ∃ len addr p, parseHeader st line = some (len, addr, 0, p))
    ∧ (∀ (cs bs : Nat) (st : IhexState) (addr : Nat) (data : List Nat) (ck : Nat),
        addr < 65536 → data.length < 256 → ck < 256 → (∀ b ∈ data, b < 256) →
        (addr + st.extAddr + data.length) % 2 ^ 32 < MAX_MEMORY_SIZE →
        ((data.length % 256 + addr / 256 % 256 + addr % 256 + 0 % 256 + listSum data) % 256
          + ck % 256) % 256 ≠ 0 →
        (ihex_parse_line cs bs st (mkDataLine addr data ck)).1 = 0 ∧
        (ihex_parse_line cs bs st (mkDataLine addr data ck)).2.byteCount
          = st.byteCount + data.length ∧
        ∀ (k : Nat) (hk : k < data.length),
          (ihex_parse_line cs bs st (mkDataLine addr data ck)).2.mask
            ((addr + st.extAddr + k) % 2 ^ 32) = true ∧
          (ihex_parse_line cs bs st (mkDataLine addr data ck)).2.image
            ((addr + st.extAddr + k) % 2 ^ 32) = data.get ⟨k, hk⟩) := by
  constructor
  · intro cs bs st line h
    cases hh : parseHeader st line with
    | none =>
      left
      simp only [ihex_parse_line, hh]
    | some q =>
      obtain ⟨len, addr, code, p⟩ := q
      by_cases hc : code = 0
      · subst hc
        right
        exact ⟨len, addr, p, rfl⟩
      · exfalso
        have h1 : (ihex_parse_line cs bs st line).1 = 1 := by
          simp only [ihex_parse_line, hh, if_pos hc]
          exact nonDataBranch_fst cs bs st _ len code p
        omega
  · intro cs bs st addr data ck haddr hlen hck hb hgate hsum
    have hfst := parse_mkDataLine_fst cs bs st addr data ck haddr hlen hck hb hgate
    have hsnd := parse_mkDataLine_snd cs bs st addr data ck haddr hlen hck hb hgate
    refine ⟨by rw [hfst, if_pos hsum], ?_, ?_⟩
    · rw [hsnd]
      simp only [writeData, writeBytes_byteCount]
    · intro k hk
      rw [hsnd]
      simp only [writeData]
      have := writeBytes_get (addr + st.extAddr) data 0
        { st with byteCount := st.byteCount + data.length } k hk (by omega)
      have e : addr + st.extAddr + 0 + k = addr + st.extAddr + k := by omega
      rwa [e] at this

/-- C1, witness for the amended theorem: a one-byte data line with a checksum
mismatch, run from the reset state; the parse fails, the byte counter has
become 1 and the byte 0x41 is stored at address 0 with its flag set. -/
theorem c1_parse_failure_state_witness :
    (ihex_parse_line 2031616 1024 resetState (mkDataLine 0 [0x41] 0xBF)).1 = 0 ∧
    (ihex_parse_line 2031616 1024 resetState (mkDataLine 0 [0x41] 0xBF)).2.byteCount = 0 + 1 := by
  have h := c1_parse_failure_state.2 2031616 1024 resetState 0 [0x41] 0xBF
    (by decide) (by decide) (by decide) (by decide) (by decide) (by decide)
  exact ⟨h.1, h.2.1⟩

/-- C3, counterexample.  The first line is a valid data record (one byte 0x41,
correct checksum 0xBE) and parses successfully.  The second line is the same
line with its record-type byte corrupted from 00 to 01: the claim demands that
this single-byte corruption flip the result to failure, but ihex_parse_line
accepts the corrupted line as an end-of-file record and returns success. -/
theorem c3_counterexample :
    (ihex_parse_line 2031616 1024 resetState (":0100000041BE").toList).1 = 1 ∧
    (ihex_parse_line 2031616 1024 resetState (":0100000141BE").toList).1 = 1 ∧
    (ihex_parse_line 2031616 1024 resetState (":0100000141BE").toList).2.endSeen = true := by
  decide

/-- C3, amended: for a structurally well-formed data (type 00) line with an
in-range address, ihex_parse_line succeeds iff the checksum invariant holds;
and corrupting any single data byte, the checksum byte, or either address byte
of a valid data line flips the result to failure.  (Corrupting the record-type
byte, by contrast, can leave the parse succeeding, as the counterexample
shows, since nonzero types are handled permissively.) -/
theorem c3_data_line_checksum (cs bs : Nat) (st : IhexState) (addr : Nat) (data : List Nat)
    (ck : Nat) (haddr : addr < 65536) (hlen : data.length < 256) (hck : ck < 256)
    (hb : ∀ b ∈ data, b < 256)
    (hgate : (addr + st.extAddr + data.length) % 2 ^ 32 < MAX_MEMORY_SIZE) :
    ((ihex_parse_line cs bs st (mkDataLine addr data ck)).1 = 1 ↔
       (data.length + addr / 256 + addr % 256 + 0 + listSum data + ck) % 256 = 0)
    ∧ ((data.length + addr / 256 + addr % 256 + 0 + listSum data + ck) % 256 = 0 →
       (∀ (k : Nat) (hk : k < data.length) (d : Nat), d < 256 → d ≠ data.get ⟨k, hk⟩ →
          (ihex_parse_line cs bs st (mkDataLine addr (data.set k d) ck)).1 = 0)
       ∧ (∀ ck2 : Nat, ck2 < 256 → ck2 ≠ ck →
          (ihex_parse_line cs bs st (mkDataLine addr data ck2)).1 = 0)
       ∧ (∀ a2 : Nat, a2 < 65536 → a2 ≠ addr →
            (a2 % 256 = addr % 256 ∨ a2 / 256 = addr / 256) →
            (ihex_parse_line cs bs st (mkDataLine a2 data ck)).1 = 0)) := by
  have hfst := parse_mkDataLine_fst cs bs st addr data ck haddr hlen hck hb hgate
  have hCr : ((data.length % 256 + addr / 256 % 256 + addr % 256 + 0 % 256 + listSum data) % 256
        + ck % 256) % 256
      = (data.length + addr / 256 + addr % 256 + 0 + listSum data + ck) % 256 := by omega
  rw [hCr] at hfst
  constructor
  · rw [hfst]
    by_cases hC : (data.length + addr / 256 + addr % 256 + 0 + listSum data + ck) % 256 = 0
    · simp [hC]
    · simp [hC]
  · intro hok
    refine ⟨?_, ?_, ?_⟩
    · intro k hk d hd hne
      have hg : data.get ⟨k, hk⟩ < 256 := hb _ (List.get_mem data k hk)
      have hset := listSum_set data k hk d
      have hfst2 := parse_mkDataLine_fst cs bs st addr (data.set k d) ck haddr
        (by simpa using hlen) hck
        (by
          intro b hbm
          rcases List.mem_or_eq_of_mem_set hbm with h1 | h1
          · exact hb b h1
          · omega)
        (by simpa using hgate)
      rw [List.length_set] at hfst2
      rw [hfst2, if_pos (by omega)]
    · intro ck2 hck2 hne
      have hfst2 := parse_mkDataLine_fst cs bs st addr data ck2 haddr hlen hck2 hb hgate
      rw [hfst2, if_pos (by omega)]
    · intro a2 ha2 hne hbyte
      by_cases hg2 : (a2 + st.extAddr + data.length) % 2 ^ 32 < MAX_MEMORY_SIZE
      · have hfst2 := parse_mkDataLine_fst cs bs st a2 data ck ha2 hlen hck hb hg2
        rw [hfst2, if_pos (by omega)]
      · have hnone := parseHeader_mkLine_gate st data.length a2 0 (encList data ++ encB ck)
          hlen ha2 (by omega)
          (by rw [List.length_append, encList_length]; simp [encB]; omega)
          (by omega)
        simp only [mkDataLine, ihex_parse_line, hnone]

/-- C3, witness: the valid one-byte data line (byte 0x41, checksum 0xBE) built
by the line builder parses successfully, and corrupting its checksum byte to
0xBF flips the result to failure. -/
theorem c3_data_line_checksum_witness :
    (ihex_parse_line 2031616 1024 resetState (mkDataLine 0 [0x41] 0xBE)).1 = 1 ∧
    (ihex_parse_line 2031616 1024 resetState (mkDataLine 0 [0x41] 0xBF)).1 = 0 := by
  have h := c3_data_line_checksum 2031616 1024 resetState 0 [0x41] 0xBE
    (by decide) (by decide) (by decide) (by decide) (by decide)
  exact ⟨h.1.mpr (by decide), (h.2 (by decide)).2.1 0xBF (by decide) (by decide)⟩

/-- C6: an extended-linear-address (type 04) record with a valid checksum sets
the extended address base to the carried value shifted left 16, and exactly
when the profile has code_size over 1048576 and block_size at least 1024 and
the shifted base falls inside the flash-mapped window from 0x60000000 of
code_size bytes, 0x60000000 is subtracted.  In particular the value 0x6000 on
such a profile resolves to base 0, not 0x60000000. -/
theorem c6_extended_addr_offset (cs bs : Nat) (st : IhexState) (i : Nat) (hi : i < 65536)
    (hgate : (0 + st.extAddr + 2) % 2 ^ 32 < MAX_MEMORY_SIZE) :
    ((ihex_parse_line cs bs st
        (mkType4Line i ((256 - (6 + i / 256 + i % 256) % 256) % 256))).1 = 1)
    ∧ ((ihex_parse_line cs bs st
        (mkType4Line i ((256 - (6 + i / 256 + i % 256) % 256) % 256))).2.extAddr
        = if 1048576 < cs ∧ 1024 ≤ bs ∧ 0x60000000 ≤ i * 65536 ∧ i * 65536 < 0x60000000 + cs
          then i * 65536 - 0x60000000 else i * 65536)
    ∧ (1048576 < cs → 1024 ≤ bs → i = 0x6000 →
        (ihex_parse_line cs bs st
          (mkType4Line i ((256 - (6 + i / 256 + i % 256) % 256) % 256))).2.extAddr = 0) := by
  have hck : (256 - (6 + i / 256 + i % 256) % 256) % 256 < 256 := by omega
  have h6 : 2 + 2 * 2 ≤ (encW i ++ encB ((256 - (6 + i / 256 + i % 256) % 256) % 256)).length := by
    simp [encW, encB]
  have hh := parseHeader_mkLine st 2 0 4
    (encW i ++ encB ((256 - (6 + i / 256 + i % 256) % 256) % 256))
    (by omega) (by omega) (by omega) h6 hgate
  have hsc : scanHex 2 (encB ((256 - (6 + i / 256 + i % 256) % 256) % 256))
      = some ((256 - (6 + i / 256 + i % 256) % 256) % 256) := by
    have := scanHex_encB ((256 - (6 + i / 256 + i % 256) % 256) % 256) hck []
    rwa [List.append_nil] at this
  have heval : ihex_parse_line cs bs st
      (mkType4Line i ((256 - (6 + i / 256 + i % 256) % 256) % 256))
      = (1, { st with extAddr :=
          if 1048576 < cs ∧ 1024 ≤ bs ∧ 0x60000000 ≤ i * 65536 ∧ i * 65536 < 0x60000000 + cs
          then i * 65536 - 0x60000000 else i * 65536 }) := by
    simp only [mkType4Line, ihex_parse_line, hh]
    rw [if_pos (by decide : (4 : Nat) ≠ 0)]
    simp only [nonDataBranch, scanHex_encW i hi _, encW_drop, hsc]
    rw [if_neg (show ¬ ((4 : Nat) = 2 ∧ True) from by simp)]
    rw [if_pos (show True ∧ True from ⟨trivial, trivial⟩)]
    rw [if_neg (show ¬ (((2 % 256 + 0 / 256 % 256 + 0 % 256 + 4 % 256 + i / 256 % 256 + i % 256) % 256
      + (256 - (6 + i / 256 + i % 256) % 256) % 256 % 256) % 256 ≠ 0) from by omega)]
    rw [if_neg (by decide : ¬ ((4 : Nat) = 1))]
  refine ⟨by rw [heval], by rw [heval], ?_⟩
  intro hcs hbs hieq
  subst hieq
  rw [heval]
  show (if 1048576 < cs ∧ 1024 ≤ bs ∧ 0x60000000 ≤ 24576 * 65536 ∧ 24576 * 65536 < 0x60000000 + cs
        then 24576 * 65536 - 0x60000000 else 24576 * 65536) = 0
  rw [if_pos ⟨hcs, hbs, by omega, by omega⟩]

/-- C6, witness: on the TEENSY40 profile (code_size 2031616, block_size 1024),
the record with value 0x6000 and checksum 0x9A parses and leaves the extended
address base at 0. -/
theorem c6_extended_addr_offset_witness :
    (ihex_parse_line 2031616 1024 resetState (mkType4Line 0x6000 0x9A)).1 = 1 ∧
    (ihex_parse_line 2031616 1024 resetState (mkType4Line 0x6000 0x9A)).2.extAddr = 0 := by
  have h := c6_extended_addr_offset 2031616 1024 resetState 0x6000 (by decide) (by decide)
  exact ⟨h.1, h.2.2 (by decide) (by decide) rfl⟩

/-- Declared length other than 2 makes both extended-address branches fall
through as a no-op. -/
theorem nonDataBranch_badlen (cs bs : Nat) (st : IhexState) (sum len code : Nat) (p : List Char)
    (hcode : code = 2 ∨ code = 4) (hl2 : len ≠ 2) :
    nonDataBranch cs bs st sum len code p = (1, st) := by
  rcases hcode with rfl | rfl
  · unfold nonDataBranch
    rw [if_neg (by decide : ¬ ((2 : Nat) = 1)),
        if_neg (fun hc => hl2 hc.2),
        if_neg (show ¬ ((2 : Nat) = 4 ∧ len = 2) from fun hc => absurd hc.1 (by decide))]
  · unfold nonDataBranch
    rw [if_neg (by decide : ¬ ((4 : Nat) = 1)),
        if_neg (show ¬ ((4 : Nat) = 2 ∧ len = 2) from fun hc => absurd hc.1 (by decide)),
        if_neg (fun hc => hl2 hc.2)]

/-- A value field that fails to scan makes the extended-address record a
no-op. -/
theorem nonDataBranch_noValue (cs bs : Nat) (st : IhexState) (sum code : Nat) (p : List Char)
    (hcode : code = 2 ∨ code = 4) (hsi : scanHex 4 p = none) :
    nonDataBranch cs bs st sum 2 code p = (1, st) := by
  rcases hcode with rfl | rfl
  · unfold nonDataBranch
    rw [if_neg (by decide : ¬ ((2 : Nat) = 1)),
        if_pos (show (2 : Nat) = 2 ∧ (2 : Nat) = 2 from ⟨rfl, rfl⟩)]
    simp only [hsi]
  · unfold nonDataBranch
    rw [if_neg (by decide : ¬ ((4 : Nat) = 1)),
        if_neg (by decide : ¬ ((4 : Nat) = 2 ∧ (2 : Nat) = 2)),
        if_pos (show (4 : Nat) = 4 ∧ (2 : Nat) = 2 from ⟨rfl, rfl⟩)]
    simp only [hsi]

/-- A checksum field that fails to scan makes the extended-address record a
no-op. -/
theorem nonDataBranch_noCksum (cs bs : Nat) (st : IhexState) (sum code : Nat) (p : List Char)
    (i : Nat) (hcode : code = 2 ∨ code = 4) (hsi : scanHex 4 p = some i)
    (hsk : scanHex 2 (p.drop 4) = none) :
    nonDataBranch cs bs st sum 2 code p = (1, st) := by
  rcases hcode with rfl | rfl
  · unfold nonDataBranch
    rw [if_neg (by decide : ¬ ((2 : Nat) = 1)),
        if_pos (show (2 : Nat) = 2 ∧ (2 : Nat) = 2 from ⟨rfl, rfl⟩)]
    simp only [hsi, hsk]
  · unfold nonDataBranch
    rw [if_neg (by decide : ¬ ((4 : Nat) = 1)),
        if_neg (by decide : ¬ ((4 : Nat) = 2 ∧ (2 : Nat) = 2)),
        if_pos (show (4 : Nat) = 4 ∧ (2 : Nat) = 2 from ⟨rfl, rfl⟩)]
    simp only [hsi, hsk]

/-- A checksum mismatch makes the extended-address record a no-op. -/
theorem nonDataBranch_mismatch (cs bs : Nat) (st : IhexState) (sum code : Nat) (p : List Char)
    (i ck : Nat) (hcode : code = 2 ∨ code = 4) (hsi : scanHex 4 p = some i)
    (hsk : scanHex 2 (p.drop 4) = some ck)
    (hne : ((sum + i / 256 % 256 + i % 256) % 256 + ck % 256) % 256 ≠ 0) :
    nonDataBranch cs bs st sum 2 code p = (1, st) := by
  rcases hcode with rfl | rfl
  · unfold nonDataBranch
    rw [if_neg (by decide : ¬ ((2 : Nat) = 1)),
        if_pos (show (2 : Nat) = 2 ∧ (2 : Nat) = 2 from ⟨rfl, rfl⟩)]
    simp only [hsi, hsk]
    rw [if_pos hne]
  · unfold nonDataBranch
    rw [if_neg (by decide : ¬ ((4 : Nat) = 1)),
        if_neg (by decide : ¬ ((4 : Nat) = 2 ∧ (2 : Nat) = 2)),
        if_pos (show (4 : Nat) = 4 ∧ (2 : Nat) = 2 from ⟨rfl, rfl⟩)]
    simp only [hsi, hsk]
    rw [if_pos hne]

/-- A validated extended-address record replaces exactly the extended address
field: shift 4 for type 2, shift 16 with the flash-offset correction for
type 4. -/
theorem nonDataBranch_update (cs bs : Nat) (st : IhexState) (sum code : Nat) (p : List Char)
    (i ck : Nat) (hcode : code = 2 ∨ code = 4) (hsi : scanHex 4 p = some i)
    (hsk : scanHex 2 (p.drop 4) = some ck)
    (hok : ((sum + i / 256 % 256 + i % 256) % 256 + ck % 256) % 256 = 0) :
    nonDataBranch cs bs st sum 2 code p
      = (1, { st with extAddr :=
          if code = 2 then i * 16
          else if 1048576 < cs ∧ 1024 ≤ bs ∧ 0x60000000 ≤ i * 65536
                  ∧ i * 65536 < 0x60000000 + cs
               then i * 65536 - 0x60000000 else i * 65536 }) := by
  rcases hcode with rfl | rfl
  · unfold nonDataBranch
    rw [if_neg (by decide : ¬ ((2 : Nat) = 1)),
        if_pos (show (2 : Nat) = 2 ∧ (2 : Nat) = 2 from ⟨rfl, rfl⟩)]
    simp only [hsi, hsk]
    rw [if_neg (show ¬ (((sum + i / 256 % 256 + i % 256) % 256 + ck % 256) % 256 ≠ 0)
      from by omega)]
    simp
  · unfold nonDataBranch
    rw [if_neg (by decide : ¬ ((4 : Nat) = 1)),
        if_neg (by decide : ¬ ((4 : Nat) = 2 ∧ (2 : Nat) = 2)),
        if_pos (show (4 : Nat) = 4 ∧ (2 : Nat) = 2 from ⟨rfl, rfl⟩)]
    simp only [hsi, hsk]
    rw [if_neg (show ¬ (((sum + i / 256 % 256 + i % 256) % 256 + ck % 256) % 256 ≠ 0)
      from by omega)]
    simp

/-- C7, counterexample.  In the line the type-04 value field is the malformed
text 1G00 (G is not a hex digit) and the trailing field is F9; the claim says
a malformed value field leaves the extended address base unchanged; but the C
scan reads the digit prefix 1 of the malformed field (sscanf semantics), the
fixed-width pointer advance lands on F9 as the checksum, the checksum over the
prefix value validates, and the extended address base is updated from 0 to
0x10000 while the call also returns success. -/
theorem c7_counterexample :
    hexVal 'G' = none ∧
    (ihex_parse_line 2031616 1024 resetState (":020000041G00F9").toList).1 = 1 ∧
    resetState.extAddr = 0 ∧
    (ihex_parse_line 2031616 1024 resetState (":020000041G00F9").toList).2.extAddr = 0x10000 := by
  decide

/-- C7, amended: for a structurally complete type-02 or type-04 record line
with an in-range address, whose declared-length region of the tail stays in
the alphabet where a hex conversion reads exactly the digit prefix (no
leading white-space or sign, no 0x prefix, no NUL - the hfaith hypothesis;
sscanf would read a value through those, as it does through a partially hex
field), ihex_parse_line always returns success and never touches the image,
the mask, the byte counter or the end flag; the record is a no-op (state
exactly unchanged) whenever the declared length is not 2, the value field
does not begin with a hex digit, or the scanned value and checksum fail the
checksum test; and the extended address base changes only when the declared
length is 2, both fields scan, and the checksum over the scanned value
validates.  (As the counterexample shows, a partially hex value field counts
as scanned with its digit prefix, so such a malformed field can still update
the base.) -/
theorem c7_ext_record_no_op (cs bs : Nat) (st : IhexState) (len addr code : Nat)
    (tail : List Char)
    (hlen : len < 256) (haddr : addr < 65536) (hcode : code = 2 ∨ code = 4)
    (htail : 2 + 2 * len ≤ tail.length)
    (hfaith : ∀ c ∈ tail.take (2 + 2 * len), scanFaithfulChar c = true)
    (hgate : (addr + st.extAddr + len) % 2 ^ 32 < MAX_MEMORY_SIZE) :
    ((ihex_parse_line cs bs st (mkLine len addr code tail)).1 = 1)
    ∧ ((ihex_parse_line cs bs st (mkLine len addr code tail)).2.image = st.image
       ∧ (ihex_parse_line cs bs st (mkLine len addr code tail)).2.mask = st.mask
       ∧ (ihex_parse_line cs bs st (mkLine len addr code tail)).2.byteCount = st.byteCount
       ∧ (ihex_parse_line cs bs st (mkLine len addr code tail)).2.endSeen = st.endSeen)
    ∧ (len ≠ 2 → (ihex_parse_line cs bs st (mkLine len addr code tail)).2 = st)
    ∧ (scanHex 4 tail = none → (ihex_parse_line cs bs st (mkLine len addr code tail)).2 = st)
    ∧ (∀ i ck, scanHex 4 tail = some i → scanHex 2 (tail.drop 4) = some ck →
        ((len % 256 + addr / 256 % 256 + addr % 256 + code % 256 + i / 256 % 256 + i % 256) % 256
          + ck % 256) % 256 ≠ 0 →
        (ihex_parse_line cs bs st (mkLine len addr code tail)).2 = st)
    ∧ ((ihex_parse_line cs bs st (mkLine len addr code tail)).2.extAddr ≠ st.extAddr →
        len = 2 ∧ ∃ i ck, scanHex 4 tail = some i ∧ scanHex 2 (tail.drop 4) = some ck ∧
          ((len % 256 + addr / 256 % 256 + addr % 256 + code % 256 + i / 256 % 256 + i % 256)
            % 256 + ck % 256) % 256 = 0) := by
  have hcode256 : code < 256 := by rcases hcode with rfl | rfl <;> decide
  have hne0 : code ≠ 0 := by rcases hcode with rfl | rfl <;> decide
  have hh := parseHeader_mkLine st len addr code tail hlen haddr hcode256 htail hgate
  have hred : ihex_parse_line cs bs st (mkLine len addr code tail)
      = nonDataBranch cs bs st (len % 256 + addr / 256 % 256 + addr % 256 + code % 256)
          len code tail := by
    simp only [ihex_parse_line, hh]
    rw [if_pos hne0]
  by_cases hl : len = 2
  · subst hl
    have hopt : scanHex 4 tail = none ∨ ∃ i, scanHex 4 tail = some i := by
      cases scanHex 4 tail
      · exact Or.inl rfl
      · exact Or.inr ⟨_, rfl⟩
    rcases hopt with hsi | ⟨i, hsi⟩
    · have heval := nonDataBranch_noValue cs bs st
        (2 % 256 + addr / 256 % 256 + addr % 256 + code % 256) code tail hcode hsi
      rw [hred, heval]
      refine ⟨rfl, ⟨rfl, rfl, rfl, rfl⟩, fun _ => rfl, fun _ => rfl, ?_, ?_⟩
      · intro i2 ck2 hi2 _ _
        rw [hsi] at hi2
      · intro hchg
        exact absurd rfl hchg
    · have hopt2 : scanHex 2 (tail.drop 4) = none ∨ ∃ ck, scanHex 2 (tail.drop 4) = some ck := by
        cases scanHex 2 (tail.drop 4)
        · exact Or.inl rfl
        · exact Or.inr ⟨_, rfl⟩
      rcases hopt2 with hsk | ⟨ck, hsk⟩
      · have heval := nonDataBranch_noCksum cs bs st
          (2 % 256 + addr / 256 % 256 + addr % 256 + code % 256) code tail i hcode hsi hsk
        rw [hred, heval]
        refine ⟨rfl, ⟨rfl, rfl, rfl, rfl⟩, fun _ => rfl, fun _ => rfl, ?_, ?_⟩
        · intro i2 ck2 _ hck2 _
          rw [hsk] at hck2
        · intro hchg
          exact absurd rfl hchg
      · by_cases hok : ((2 % 256 + addr / 256 % 256 + addr % 256 + code % 256
            + i / 256 % 256 + i % 256) % 256 + ck % 256) % 256 = 0
        · have heval := nonDataBranch_update cs bs st
            (2 % 256 + addr / 256 % 256 + addr % 256 + code % 256) code tail i ck hcode hsi hsk hok
          rw [hred, heval]
          refine ⟨rfl, ⟨rfl, rfl, rfl, rfl⟩, fun h => absurd rfl h, ?_, ?_, ?_⟩
          · intro h
            rw [hsi] at h
            cases h
          · intro i2 ck2 hi2 hck2 hne2
            rw [hsi] at hi2
            rw [hsk] at hck2
            cases hi2
            cases hck2
            exact absurd hok hne2
          · intro _
            exact ⟨rfl, i, ck, hsi, hsk, hok⟩
        · have heval := nonDataBranch_mismatch cs bs st
            (2 % 256 + addr / 256 % 256 + addr % 256 + code % 256) code tail i ck hcode hsi hsk hok
          rw [hred, heval]
          refine ⟨rfl, ⟨rfl, rfl, rfl, rfl⟩, fun _ => rfl, fun _ => rfl, fun _ _ _ _ _ => rfl, ?_⟩
          intro hchg
          exact absurd rfl hchg
  · have heval := nonDataBranch_badlen cs bs st
      (len % 256 + addr / 256 % 256 + addr % 256 + code % 256) len code tail hcode hl
    rw [hred, heval]
    refine ⟨rfl, ⟨rfl, rfl, rfl, rfl⟩, fun _ => rfl, fun _ => rfl, fun _ _ _ _ _ => rfl, ?_⟩
    intro hchg
    exact absurd rfl hchg

/-- C7, witness for the amended theorem: a type-02 record line whose value
field is entirely non-hex (ZZZZZZ) leaves the state exactly unchanged while
the call returns success. -/
theorem c7_ext_record_no_op_witness :
    (ihex_parse_line 131072 1024 resetState (mkLine 2 0 2 (("ZZZZZZ").toList))).1 = 1 ∧
    (ihex_parse_line 131072 1024 resetState (mkLine 2 0 2 (("ZZZZZZ").toList))).2 = resetState := by
  have h := c7_ext_record_no_op 131072 1024 resetState 2 0 2 (("ZZZZZZ").toList)
    (by decide) (by decide) (Or.inl rfl) (by decide) (by decide) (by decide)
  exact ⟨h.1, h.2.2.2.1 (by decide)⟩

/-- C2, counterexample.  A type-04 record moves the extended base to 0xFF0000
and a valid data record writes the byte 0x00 at address 0xFFFFFE, the highest
address the parser can fill.  The two-byte query at address 0xFFFFFE lies
within the image capacity (0xFFFFFE + 2 = MAX_MEMORY_SIZE covers the last two
addresses), so the claim demands the stored byte 0x00 at the first position;
but ihex_get_data takes its fill branch as soon as addr + len reaches the
capacity and returns 0xFF for the written address as well. -/
theorem c2_counterexample :
    ((ihex_parse_line 2031616 1024 resetState (":0200000400FFFB").toList).1 = 1)
    ∧ ((ihex_parse_line 2031616 1024
        (ihex_parse_line 2031616 1024 resetState (":0200000400FFFB").toList).2
        (":01FFFE000002").toList).1 = 1)
    ∧ ((ihex_parse_line 2031616 1024
        (ihex_parse_line 2031616 1024 resetState (":0200000400FFFB").toList).2
        (":01FFFE000002").toList).2.mask 0xFFFFFE = true)
    ∧ ((ihex_parse_line 2031616 1024
        (ihex_parse_line 2031616 1024 resetState (":0200000400FFFB").toList).2
        (":01FFFE000002").toList).2.image 0xFFFFFE = 0)
    ∧ ((0xFFFFFE : Int) + 2 ≤ (MAX_MEMORY_SIZE : Int))
    ∧ (ihex_get_data
        (ihex_parse_line 2031616 1024
          (ihex_parse_line 2031616 1024 resetState (":0200000400FFFB").toList).2
          (":01FFFE000002").toList).2
        (0xFFFFFE : Int) 2 = [255, 255]) := by
  decide

/-- C2, amended: for every query with non-negative addr and length, when
addr + length is strictly below MAX_MEMORY_SIZE, ihex_get_data returns at
each position 0xFF if that address was never written and the stored value if
it was written, regardless of query order (the result depends only on the
state); and whenever addr + length reaches or exceeds MAX_MEMORY_SIZE (not
only when it exceeds it) the returned buffer is filled entirely with 0xFF. -/
theorem c2_get_data (st : IhexState) (addr len : Int) (h0 : 0 ≤ addr) (h1 : 0 ≤ len) :
    (addr + len < (MAX_MEMORY_SIZE : Int) →
      ∀ i : Nat, i < len.toNat →
        (ihex_get_data st addr len)[i]? =
          some (if st.mask (addr.toNat + i) then st.image (addr.toNat + i) else 255))
    ∧ ((MAX_MEMORY_SIZE : Int) ≤ addr + len →
        ihex_get_data st addr len = List.replicate len.toNat 255) := by
  constructor
  · intro hlt i hi
    rw [ihex_get_data, if_neg (by push_neg; exact ⟨by omega, by omega, by omega⟩)]
    simp [List.getElem?_map, List.getElem?_range, hi]
  · intro hge
    rw [ihex_get_data, if_pos (Or.inr (Or.inr (by omega)))]

/-- C2, witness for the amended theorem: on the reset state a four-byte query
at address 0 returns 0xFF at position 0, and a two-byte query that reaches the
capacity bound returns the all-0xFF buffer. -/
theorem c2_get_data_witness :
    (ihex_get_data resetState 0 4)[0]? = some 255 ∧
    ihex_get_data resetState 0xFFFFFE 2 = [255, 255] := by
  constructor
  · have h := (c2_get_data resetState 0 4 (by decide) (by decide)).1 (by decide) 0 (by decide)
    simpa using h
  · have h := (c2_get_data resetState 0xFFFFFE 2 (by decide) (by decide)).2 (by decide)
    simpa using h

/-- Once the hard-reboot request flag is clear, no later iteration of the
discovery loop attempts a hard reboot. -/
theorem disc_no_hard_attempts (openOk : Nat → Bool) (hardOk softOk : Bool) :
    ∀ (fuel : Nat) (s : LoopState) (i : Nat), s.hardReq = false →
      (discoveryLoop openOk hardOk softOk fuel s i).1 = 0 := by
  intro fuel
  induction fuel with
  | zero => intro s i _; rfl
  | succ n ih =>
    intro s i hreq
    by_cases ho : openOk i
    · simp [discoveryLoop, ho]
    · have ho2 : openOk i = false := by revert ho; cases openOk i <;> simp
      by_cases hsoft : s.softReq
      · have hr := ih { hardReq := false, softReq := false, waitFlag := true, waited := true }
          (i + 1) rfl
        simp [discoveryLoop, ho2, hreq, hsoft, hr]
      · have hsoft2 : s.softReq = false := by revert hsoft; cases s.softReq <;> simp
        by_cases hw : s.waitFlag = false
        · simp [discoveryLoop, ho2, hreq, hsoft2, hw]
        · have hw2 : s.waitFlag = true := by revert hw; cases s.waitFlag <;> simp
          have hr := ih { hardReq := false, softReq := false, waitFlag := true, waited := true }
            (i + 1) rfl
          simp [discoveryLoop, ho2, hreq, hsoft2, hw2, hr]

/-- C4, counterexample.  With a pending hard-reboot request, a device that
never opens and a hard reboot that fails (no rebootor found), the discovery
loop terminates at once with the fatal rebootor diagnostic after exactly one
attempt: the run does not continue with discovery as the claim states. -/
theorem c4_counterexample :
    discoveryLoop (fun _ => false) false false 5
      { hardReq := true, softReq := false, waitFlag := false, waited := false } 0
      = (1, DiscResult.diedRebootor) := by
  decide

/-- C4, amended: in the discovery loop, when a hard-reboot request is pending
and open() has failed, teensy_hard_reboot is attempted exactly once over the
whole run; but a failed hard reboot is fatal, terminating the run with the
rebootor diagnostic rather than continuing with discovery (it is the
soft-reboot path whose failure is merely reported and non-fatal). -/
theorem c4_hard_reboot_once_fatal (openOk : Nat → Bool) (hardOk softOk : Bool)
    (fuel : Nat) (s : LoopState) (i : Nat)
    (hreq : s.hardReq = true) (hopen : openOk i = false) (hfuel : 0 < fuel) :
    (discoveryLoop openOk hardOk softOk fuel s i).1 = 1
    ∧ (hardOk = false →
        (discoveryLoop openOk hardOk softOk fuel s i).2 = DiscResult.diedRebootor) := by
  obtain ⟨n, rfl⟩ : ∃ n, fuel = n + 1 := ⟨fuel - 1, by omega⟩
  by_cases hh : hardOk = false
  · constructor
    · simp [discoveryLoop, hopen, hreq, hh]
    · intro _
      simp [discoveryLoop, hopen, hreq, hh]
  · have hbo : hardOk = true := by revert hh; cases hardOk <;> simp
    subst hbo
    refine ⟨?_, fun hc => absurd hc hh⟩
    have hr := disc_no_hard_attempts openOk true softOk n
      { hardReq := false, softReq := false, waitFlag := true, waited := true } (i + 1) rfl
    by_cases hsoft : s.softReq
    · simp [discoveryLoop, hopen, hreq, hsoft, hr]
    · have hsoft2 : s.softReq = false := by revert hsoft; cases s.softReq <;> simp
      simp [discoveryLoop, hopen, hreq, hsoft2, hr]

/-- C4, witness for the amended theorem: with a pending hard-reboot request, a
failing open and a hard reboot that succeeds, the loop performs exactly one
hard-reboot attempt. -/
theorem c4_hard_reboot_once_fatal_witness :
    (discoveryLoop (fun _ => false) true false 3
      { hardReq := true, softReq := false, waitFlag := false, waited := false } 0).1 = 1 := by
  exact (c4_hard_reboot_once_fatal (fun _ => false) true false 3
    { hardReq := true, softReq := false, waitFlag := false, waited := false } 0
    rfl rfl (by decide)).1

/-- After the first block has been written, every address the programming loop
writes has written bytes in its block range and is not blank. -/
theorem progWrites_prop (st : IhexState) (cs bs : Nat) :
    ∀ (fuel addr a : Nat), a ∈ progWrites st cs bs fuel addr false →
      ihex_bytes_in_range st (a : Int) ((a : Int) + (bs : Int) - 1) = true
      ∧ ihex_memory_is_blank st (a : Int) (bs : Int) = false := by
  intro fuel
  induction fuel with
  | zero => intro addr a h; simp [progWrites] at h
  | succ n ih =>
    intro addr a h
    rw [progWrites] at h
    by_cases h1 : addr < cs
    · rw [if_pos h1] at h
      by_cases h2 : ihex_bytes_in_range st (addr : Int) ((addr : Int) + (bs : Int) - 1) = false
      · rw [if_pos ⟨rfl, h2⟩] at h
        exact ih (addr + bs) a h
      · rw [if_neg (fun hc => h2 hc.2)] at h
        by_cases h3 : ihex_memory_is_blank st (addr : Int) (bs : Int) = true
        · rw [if_pos ⟨rfl, h3⟩] at h
          exact ih (addr + bs) a h
        · rw [if_neg (fun hc => h3 hc.2)] at h
          by_cases h4 : blockConfigOk cs bs = true
          · rw [if_pos h4] at h
            rcases List.mem_cons.mp h with rfl | htail
            · refine ⟨?_, ?_⟩
              · revert h2; cases ihex_bytes_in_range st (a : Int) ((a : Int) + (bs : Int) - 1) <;>
                  simp
              · revert h3; cases ihex_memory_is_blank st (a : Int) (bs : Int) <;> simp
            · exact ih (addr + bs) a htail
          · rw [if_neg h4] at h
            simp at h
    · rw [if_neg h1] at h
      simp at h

/-- C5: in the programming loop over a supported profile with positive code
and block sizes, the first block (address 0) is always written even on an
empty image, and every other written address has written bytes in its range
and is not blank, so teensy_write is never invoked for an empty or blank
non-first block. -/
theorem c5_block_skip (st : IhexState) (cs bs : Nat) (hcs : 0 < cs) (hbs : 0 < bs)
    (hcfg : blockConfigOk cs bs = true) :
    0 ∈ programming_write_addrs st cs bs
    ∧ ∀ a ∈ programming_write_addrs st cs bs, a ≠ 0 →
        ihex_bytes_in_range st (a : Int) ((a : Int) + (bs : Int) - 1) = true
        ∧ ihex_memory_is_blank st (a : Int) (bs : Int) = false := by
  have hstep : programming_write_addrs st cs bs
      = 0 :: progWrites st cs bs cs (0 + bs) false := by
    rw [programming_write_addrs, progWrites]
    rw [if_pos hcs]
    rw [if_neg (fun hc => by simp at hc)]
    rw [if_neg (fun hc => by simp at hc)]
    rw [if_pos hcfg]
  rw [hstep]
  constructor
  · exact List.mem_cons_self 0 _
  · intro a ha hne
    rcases List.mem_cons.mp ha with rfl | htail
    · exact absurd rfl hne
    · exact progWrites_prop st cs bs cs (0 + bs) a htail

/-- C5, witness: on the TEENSY2 profile (code_size 32256, block_size 128) with
an empty image, address 0 is in the write list. -/
theorem c5_block_skip_witness :
    0 ∈ programming_write_addrs resetState 32256 128 :=
  (c5_block_skip resetState 32256 128 (by decide) (by decide) (by decide)).1

/-- Length of a get_data result: always exactly the requested length. -/
theorem ihex_get_data_length (st : IhexState) (addr len : Int) :
    (ihex_get_data st addr len).length = len.toNat := by
  rw [ihex_get_data]
  split
  · rw [List.length_replicate]
  · rw [List.length_map, List.length_range]

/-- C8: block encoding selects exactly one of three mutually exclusive
formats.  Small targets (block_size at most 256 and code_size under 0x10000)
prepend the 2-byte little-endian absolute address; medium targets (block_size
exactly 256 with code_size at least 0x10000) prepend bits 8 to 23 of the
address, low byte then high byte; large targets (block_size 512 or 1024)
prepend the 3-byte little-endian address and 61 zero padding bytes; any other
combination is the fatal die; and the write sizes are 2 + block_size for the
first two formats and 64 + block_size for the third. -/
theorem c8_block_encoding (st : IhexState) (cs bs addr : Nat) :
    ((bs ≤ 256 ∧ cs < 0x10000) →
       encodeBlock st cs bs addr
         = some ([addr % 256, addr / 256 % 256] ++ ihex_get_data st (addr : Int) (bs : Int))
       ∧ ([addr % 256, addr / 256 % 256]
           ++ ihex_get_data st (addr : Int) (bs : Int)).length = 2 + bs)
    ∧ ((bs = 256 ∧ 0x10000 ≤ cs) →
       encodeBlock st cs bs addr
         = some ([addr / 256 % 256, addr / 65536 % 256]
             ++ ihex_get_data st (addr : Int) (bs : Int))
       ∧ ([addr / 256 % 256, addr / 65536 % 256]
           ++ ihex_get_data st (addr : Int) (bs : Int)).length = 2 + bs)
    ∧ ((bs = 512 ∨ bs = 1024) →
       encodeBlock st cs bs addr
         = some ([addr % 256, addr / 256 % 256, addr / 65536 % 256]
             ++ List.replicate 61 0 ++ ihex_get_data st (addr : Int) (bs : Int))
       ∧ ([addr % 256, addr / 256 % 256, addr / 65536 % 256]
           ++ List.replicate 61 0 ++ ihex_get_data st (addr : Int) (bs : Int)).length = 64 + bs)
    ∧ (¬ (bs ≤ 256 ∧ cs < 0x10000) → bs ≠ 256 → bs ≠ 512 → bs ≠ 1024 →
       encodeBlock st cs bs addr = none)
    ∧ ¬ ((bs ≤ 256 ∧ cs < 0x10000) ∧ (bs = 256 ∧ 0x10000 ≤ cs))
    ∧ ¬ ((bs ≤ 256 ∧ cs < 0x10000) ∧ (bs = 512 ∨ bs = 1024))
    ∧ ¬ ((bs = 256 ∧ 0x10000 ≤ cs) ∧ (bs = 512 ∨ bs = 1024)) := by
  have hlen : ∀ a l : Int, (ihex_get_data st a l).length = l.toNat := ihex_get_data_length st
  refine ⟨?_, ?_, ?_, ?_, ?_, ?_, ?_⟩
  · intro hsmall
    constructor
    · rw [encodeBlock, if_pos hsmall]
    · simp [hlen]
      omega
  · intro hmed
    constructor
    · rw [encodeBlock, if_neg (fun hc => by omega), if_pos hmed.1]
    · simp [hlen]
      omega
  · intro hlarge
    constructor
    · rw [encodeBlock, if_neg (fun hc => by omega), if_neg (by omega), if_pos hlarge]
    · rcases hlarge with rfl | rfl <;> simp [hlen]
  · intro h1 h2 h3 h4
    rw [encodeBlock, if_neg h1, if_neg h2, if_neg (by omega)]
  · omega
  · omega
  · omega

/-- C8, witness: on the small TEENSY2 profile (code_size 32256, block_size
128) the empty-image block at address 0 is the 2-byte header followed by 128
payload bytes, 130 bytes in total. -/
theorem c8_block_encoding_witness :
    encodeBlock resetState 32256 128 0
      = some ([0 % 256, 0 / 256 % 256] ++ ihex_get_data resetState (0 : Int) (128 : Int))
    ∧ ([0 % 256, 0 / 256 % 256] ++ ihex_get_data resetState (0 : Int) (128 : Int)).length
      = 2 + 128 :=
  (c8_block_encoding resetState 32256 128 0).1 ⟨by decide, by decide⟩

/-- C9: reading consumes the lines of the opened file until a type-01 record
is parsed or the file's lines are exhausted, and nothing else stops it early.
The C loop does contain an if feof(stdin) break, but the program never reads
from standard input, so stdin's end-of-file indicator is never set and that
break is dead code; the loop is therefore evaluated with the test false.
First conjunct: on a run in which every non-empty line parses and none is an
end-of-file record, the loop consumes every line of the file (it equals the
specification-side consumeAllLines; a failing line is a fatal parse error,
the spec's separate ParseError rule, so it is excluded by goodRun).  Second
conjunct: a line that parses as an end-of-file record stops the reading,
whatever lines remain.  Third conjunct: the end of the file's lines stops
the reading with the current state. -/
theorem c9_reads_until_eof_or_end (cs bs : Nat) :
    (∀ (st : IhexState) (lines : List (List Char)), goodRun cs bs st lines = true →
       ihexReadLoop cs bs false st lines = some (consumeAllLines cs bs st lines))
    ∧ (∀ (st : IhexState) (l : List Char) (ls : List (List Char)),
        l.isEmpty = false →
        (ihex_parse_line cs bs st l).1 ≠ 0 →
        (ihex_parse_line cs bs st l).2.endSeen = true →
        ihexReadLoop cs bs false st (l :: ls) = some (ihex_parse_line cs bs st l).2)
    ∧ (∀ st : IhexState, ihexReadLoop cs bs false st [] = some st) := by
  refine ⟨?_, ?_, fun _ => rfl⟩
  · intro st lines
    induction lines generalizing st with
    | nil => intro _; rfl
    | cons l ls ih =>
      intro hg
      rw [goodRun] at hg
      by_cases he : l.isEmpty
      · rw [if_pos he] at hg
        have h1 : st.endSeen = false := by
          cases hb : st.endSeen
          · rfl
          · rw [hb] at hg; simp at hg
        have h2 : goodRun cs bs st ls = true := by
          rw [h1] at hg; simpa using hg
        rw [ihexReadLoop, consumeAllLines, if_pos he, if_pos he,
          if_neg (by simp [h1]), if_neg (by simp)]
        exact ih st h2
      · rw [if_neg he] at hg
        simp only [Bool.and_eq_true, bne_iff_ne, ne_eq, Bool.not_eq_true'] at hg
        obtain ⟨⟨h1, h2⟩, h3⟩ := hg
        rw [ihexReadLoop, consumeAllLines, if_neg he, if_neg he]
        simp only [if_neg h1, if_neg (show
          ¬ (ihex_parse_line cs bs st l).2.endSeen = true from by rw [h2]; simp),
          if_neg (show ¬ false = true from by simp)]
        exact ih _ h3
  · intro st l ls he h1 h2
    rw [ihexReadLoop, if_neg (by simp [he])]
    simp only [if_neg h1, if_pos h2]

/-- C9, witness: on a two-line file of valid data records with no end-of-file
record, the loop consumes both lines (final byte counter 2), and putting an
end-of-file record first stops the reading at once. -/
theorem c9_reads_until_eof_or_end_witness :
    goodRun 2031616 1024 resetState
      [(":0100000041BE").toList, (":0100010042BC").toList] = true
    ∧ ihexReadLoop 2031616 1024 false resetState
        [(":0100000041BE").toList, (":0100010042BC").toList]
      = some (consumeAllLines 2031616 1024 resetState
          [(":0100000041BE").toList, (":0100010042BC").toList])
    ∧ (consumeAllLines 2031616 1024 resetState
        [(":0100000041BE").toList, (":0100010042BC").toList]).byteCount = 2
    ∧ ihexReadLoop 2031616 1024 false resetState
        [(":00000001FF").toList, (":0100000041BE").toList]
      = some (ihex_parse_line 2031616 1024 resetState (":00000001FF").toList).2 := by
  refine ⟨by decide, ?_, by decide, ?_⟩
  · exact (c9_reads_until_eof_or_end 2031616 1024).1 resetState _ (by decide)
  · exact (c9_reads_until_eof_or_end 2031616 1024).2.1 resetState _ _
      (by decide) (by decide) (by decide)

/-- C10: the address-range gate is checked on every record line, and with the
extended base at 0xFFFF0000 (far beyond MAX_MEMORY_SIZE) an end-of-file
record and a further extended-address record are indeed rejected; but the
gate is computed in 32-bit arithmetic, so a data line at address 0xFFFF with
one byte wraps (0xFFFF0000 + 0xFFFF + 1 is 0 mod 2^32), passes the gate, is
accepted as valid, and its byte is stored at the out-of-bounds index
0xFFFFFFFF: not every subsequent line is rejected, contradicting the claim
and the spec's address-range rule. -/
theorem c10_gate_wraparound_bug :
    ((ihex_parse_line 2031616 1024 resetState (":02000004FFFFFC").toList).1 = 1)
    ∧ ((ihex_parse_line 2031616 1024 resetState (":02000004FFFFFC").toList).2.extAddr
        = 0xFFFF0000)
    ∧ (MAX_MEMORY_SIZE
        ≤ (ihex_parse_line 2031616 1024 resetState (":02000004FFFFFC").toList).2.extAddr)
    ∧ ((ihex_parse_line 2031616 1024
        (ihex_parse_line 2031616 1024 resetState (":02000004FFFFFC").toList).2
        (":00000001FF").toList).1 = 0)
    ∧ ((ihex_parse_line 2031616 1024
        (ihex_parse_line 2031616 1024 resetState (":02000004FFFFFC").toList).2
        (":02000004000AF0").toList).1 = 0)
    ∧ ((ihex_parse_line 2031616 1024
        (ihex_parse_line 2031616 1024 resetState (":02000004FFFFFC").toList).2
        (":01FFFF000001").toList).1 = 1)
    ∧ ((ihex_parse_line 2031616 1024
        (ihex_parse_line 2031616 1024 resetState (":02000004FFFFFC").toList).2
        (":01FFFF000001").toList).2.mask 0xFFFFFFFF = true) := by
  decide
